import Mathlib

/-!
Shallow embedding of the surface-microphone analyzer core
(`src/Python_programmatūra.py`, class `SurfaceMicrophoneAnalyzer`).

Amplitudes and timestamps are modelled as rationals (the Python code works
with numpy float arrays; all operations the verified claims touch are exact
field arithmetic, so ℚ is the faithful exact model).  The two rolling
buffers (`collections.deque(maxlen=300000)`) are modelled as lists that keep
the most recent `max_samples` elements.  The scipy Butterworth / notch
filters (`butter` + `sosfiltfilt`, `iirnotch` + `filtfilt`) are opaque
floating-point numeric kernels; the filter chain is therefore parameterized
by the three stage functions `hp lp nf : List ℚ → List ℚ`, while all the
control flow around them (DC-mean removal, enable flags, the length guard)
is embedded exactly as written in `process_signal`.
-/

set_option autoImplicit false

namespace SurfaceMic

/-- `self.sample_rate = 10000` (Hz). -/
def sample_rate : ℚ := 10000

/-- `self.max_samples = 300000` (30 seconds of data at 10 kHz). -/
def max_samples : ℕ := 300000

/-- The most recent `n` elements of a list (suffix of length `min n l.length`). -/
def rtake {α : Type} (n : ℕ) (l : List α) : List α :=
  (l.reverse.take n).reverse

/-- Models `collections.deque(maxlen := cap)` extended by `batch`: elements are
appended in order and the oldest elements are evicted once the capacity is
exceeded, so the result is the last `cap` elements of `buf ++ batch`. -/
def dequeExtend {α : Type} (cap : ℕ) (buf batch : List α) : List α :=
  rtake cap (buf ++ batch)

/-- Per-sample timestamps of one delivered batch:
`times = timestamp + np.arange(len(samples)) * dt` with `dt = 1 / sample_rate`
(`on_data_received`). -/
def batchTimes (timestamp : ℚ) (n : ℕ) : List ℚ :=
  (List.range n).map (fun (i : ℕ) => timestamp + (i : ℚ) * (1 / sample_rate))

/-- One detected spike, `{'time': .., 'max': .., 'min': .., 'amplitude': ..}`
as built in `detect_spikes`. -/
structure SpikeRecord where
  time : ℚ
  max : ℚ
  min : ℚ
  amplitude : ℚ
  deriving DecidableEq, Repr

/-- The core mutable state of `SurfaceMicrophoneAnalyzer` (GUI widgets and the
plot items are presentation-layer and not modelled; `spike_markers` is the
plot-side mirror of `detected_spikes`). -/
structure AnalyzerState where
  data_buffer : List ℚ
  time_buffer : List ℚ
  paused : Bool
  frozen_data : Option (List ℚ)
  frozen_time : Option (List ℚ)
  total_samples_received : ℕ
  selected_region : Option (ℚ × ℚ)
  _region_start : Option ℚ
  detected_spikes : List SpikeRecord
  deriving DecidableEq, Repr

/-- The state set up by `__init__`. -/
def initState : AnalyzerState :=
  { data_buffer := []
    time_buffer := []
    paused := false
    frozen_data := none
    frozen_time := none
    total_samples_received := 0
    selected_region := none
    _region_start := none
    detected_spikes := [] }

/-- `on_data_received(self, samples, timestamp)`: guarded by `if not self.paused`,
it counts the batch into `total_samples_received`, interpolates per-sample
timestamps and extends both bounded deques. -/
def on_data_received (s : AnalyzerState) (samples : List ℚ) (timestamp : ℚ) :
    AnalyzerState :=
  if s.paused then s
  else
    { s with
      total_samples_received := s.total_samples_received + samples.length
      data_buffer := dequeExtend max_samples s.data_buffer samples
      time_buffer := dequeExtend max_samples s.time_buffer
        (batchTimes timestamp samples.length) }

/-- `clear_selected_region`: clears the committed region, the temporary
first-click point, and the detected spikes (the remaining body only resets
plot items and labels). -/
def clear_selected_region (s : AnalyzerState) : AnalyzerState :=
  { s with
    selected_region := none
    _region_start := none
    detected_spikes := [] }

/-- `clear_data`: empties both buffers, drops the frozen snapshot, resets the
monotonic counter, then calls `clear_selected_region`. -/
def clear_data (s : AnalyzerState) : AnalyzerState :=
  clear_selected_region
    { s with
      data_buffer := []
      time_buffer := []
      frozen_data := none
      frozen_time := none
      total_samples_received := 0 }

/-- Feeding a whole sequence of `(timestamp, samples)` batches through
`on_data_received`, starting from the freshly initialized state. -/
def sampleBufferRun (batches : List (ℚ × List ℚ)) : AnalyzerState :=
  batches.foldl (fun st b => on_data_received st b.2 b.1) initState

/-- Concatenation of all delivered amplitude batches, in delivery order. -/
def concatBatches : List (ℚ × List ℚ) → List ℚ
  | [] => []
  | b :: rest => b.2 ++ concatBatches rest

/-- Concatenation of the interpolated timestamps of all delivered batches. -/
def concatBatchTimes : List (ℚ × List ℚ) → List ℚ
  | [] => []
  | b :: rest => batchTimes b.1 b.2.length ++ concatBatchTimes rest

/-- The three enable flags read by `process_signal`
(`self.highpass_enabled`, `self.lowpass_enabled`, `self.notch_enabled`).
The numeric parameters (cutoffs, notch frequency and Q) only reach the
opaque scipy kernels and are folded into the stage functions. -/
structure FilterConfig where
  highpass_enabled : Bool
  lowpass_enabled : Bool
  notch_enabled : Bool
  deriving DecidableEq, Repr

/-- `np.mean` of a list of rationals. -/
def mean (xs : List ℚ) : ℚ :=
  xs.sum / (xs.length : ℚ)

/-- One guarded filter stage of `process_signal`:
`if <stage>_enabled and len(processed) > 100: processed = <filter>(processed)`. -/
def filterStage (enabled : Bool) (f : List ℚ → List ℚ) (xs : List ℚ) : List ℚ :=
  if enabled = true ∧ 100 < xs.length then f xs else xs

/-- `process_signal(self, data)`: if any stage is enabled the window mean is
subtracted (adaptive DC removal; the `self.dc_offset` it also records is
display-only), then the high-pass, low-pass and notch stages run in order,
each guarded by its enable flag and the `len > 100` window guard.  The three
zero-phase scipy kernels are the parameters `hp lp nf`. -/
def process_signal (cfg : FilterConfig) (hp lp nf : List ℚ → List ℚ)
    (data : List ℚ) : List ℚ :=
  let any_filter_active :=
    cfg.highpass_enabled || cfg.lowpass_enabled || cfg.notch_enabled
  let processed := if any_filter_active then data.map (fun v => v - mean data) else data
  let processed := filterStage cfg.highpass_enabled hp processed
  let processed := filterStage cfg.lowpass_enabled lp processed
  filterStage cfg.notch_enabled nf processed

/-- The index-aligned `(time, amplitude)` pairs selected by the region mask
`mask = (times >= start_time) & (times <= end_time)` (inclusive on both
bounds, input order preserved). -/
def maskPairs (times data : List ℚ) (start_time end_time : ℚ) : List (ℚ × ℚ) :=
  (times.zip data).filter (fun p => decide (start_time ≤ p.1 ∧ p.1 ≤ end_time))

/-- `region_times = times[mask]`, `region_data = data[mask]`. -/
def maskRegion (times data : List ℚ) (start_time end_time : ℚ) :
    List ℚ × List ℚ :=
  ((maskPairs times data start_time end_time).map Prod.fst,
   (maskPairs times data start_time end_time).map Prod.snd)

/-- Second-click normalization in `on_mouse_clicked`:
`start = min(self._region_start, region_end); end = max(...)`. -/
def normalize_region (first_click second_click : ℚ) : ℚ × ℚ :=
  (min first_click second_click, max first_click second_click)

/-- The region pipeline as implemented (`detect_spikes` and
`update_region_measurements`): the filter chain runs on the whole snapshot,
then the result is masked to the region. -/
def region_pipeline (cfg : FilterConfig) (hp lp nf : List ℚ → List ℚ)
    (times data : List ℚ) (start_time end_time : ℚ) : List ℚ × List ℚ :=
  maskRegion times (process_signal cfg hp lp nf data) start_time end_time

/-- Modelled from the spec's control-flow sentence (RegionExtractor before
FilterChain): slice the snapshot to the inclusive region first, then apply
the filter chain to the sliced samples.  This is the comparison definition
for the refinement claim, not code from the source. -/
def region_pipeline_spec_order (cfg : FilterConfig) (hp lp nf : List ℚ → List ℚ)
    (times data : List ℚ) (start_time end_time : ℚ) : List ℚ × List ℚ :=
  ((maskRegion times data start_time end_time).1,
   process_signal cfg hp lp nf (maskRegion times data start_time end_time).2)

/-- `np.sign` of a rational. -/
def sign (x : ℚ) : ℚ :=
  if 0 < x then 1 else if x < 0 then -1 else 0

/-- `np.diff`: consecutive differences `x[i+1] - x[i]`. -/
def diffList (xs : List ℚ) : List ℚ :=
  (xs.zip xs.tail).map (fun p => p.2 - p.1)

/-- `zero_crossings = np.where(np.diff(np.sign(region_data)))[0]`: the indices
`i` at which the sign of the amplitude changes between samples `i` and
`i + 1`. -/
def zero_crossings (xs : List ℚ) : List ℕ :=
  (List.range (xs.length - 1)).filter
    (fun i => decide (sign (xs.getD (i + 1) 0) ≠ sign (xs.getD i 0)))

/-- The zero-crossing average-frequency estimate of
`update_region_measurements`: with at least two crossings, the mean spacing
of consecutive crossing timestamps is doubled into a period and inverted;
otherwise (or with a non-positive period) the result is unavailable. -/
def avg_freq (region_times region_data : List ℚ) : Option ℚ :=
  if 1 < (zero_crossings region_data).length then
    if 0 < mean (diffList ((zero_crossings region_data).map
        (fun i => region_times.getD i 0))) * 2 then
      some (1 / (mean (diffList ((zero_crossings region_data).map
        (fun i => region_times.getD i 0))) * 2))
    else none
  else none

/-- `np.max` of a non-empty list (`0` on `[]`, which no caller reaches:
`detect_spikes` only applies it under a `len(local_data) > 0` guard). -/
def listMax : List ℚ → ℚ
  | [] => 0
  | h :: t => t.foldl (fun a b => max a b) h

/-- `np.min` of a non-empty list (`0` on `[]`, unreachable as above). -/
def listMin : List ℚ → ℚ
  | [] => 0
  | h :: t => t.foldl (fun a b => min a b) h

/-- Scan of a plateau inside scipy's `_local_maxima_1d`: starting at `j`,
advance while `j < i_max` and `x[j]` still equals the peak value `v`.  The
fuel argument bounds the iteration count; every call supplies fuel `i_max`,
which exceeds the number of possible steps (`j` never passes `i_max`). -/
def plateauEnd (x : List ℚ) (i_max : ℕ) (v : ℚ) : ℕ → ℕ → ℕ
  | 0, j => j
  | fuel + 1, j =>
    if j < i_max ∧ x.getD j 0 = v then plateauEnd x i_max v fuel (j + 1) else j

/-- Main loop of scipy's `_local_maxima_1d` (used by
`scipy.signal.find_peaks`): scan `i` from `1` to `i_max - 1`; on a strict
ascent followed by a (possibly plateaued) strict descent, record the plateau
midpoint and resume after the plateau.  Fuel bounds the iteration count;
`localMaxima` supplies fuel `x.length`, which exceeds the number of steps
(`i` strictly increases and stops at `i_max = x.length - 1`). -/
def localMaximaGo (x : List ℚ) (i_max : ℕ) : ℕ → ℕ → List ℕ
  | 0, _ => []
  | fuel + 1, i =>
    if i < i_max then
      if x.getD (i - 1) 0 < x.getD i 0 then
        let i_ahead := plateauEnd x i_max (x.getD i 0) i_max (i + 1)
        if x.getD i_ahead 0 < x.getD i 0 then
          (i + (i_ahead - 1)) / 2 :: localMaximaGo x i_max fuel (i_ahead + 1)
        else localMaximaGo x i_max fuel (i + 1)
      else localMaximaGo x i_max fuel (i + 1)
    else []

/-- Indices of the interior local maxima of `x` (plateau midpoints), as found
by `scipy.signal.find_peaks`; boundary samples never qualify. -/
def localMaxima (x : List ℚ) : List ℕ :=
  localMaximaGo x (x.length - 1) x.length 1

/-- Insert peak index `p` into a list of peak indices kept in descending
order of their sample value in `x`. -/
def insertByPriority (x : List ℚ) (p : ℕ) : List ℕ → List ℕ
  | [] => [p]
  | q :: rest =>
    if x.getD q 0 < x.getD p 0 then p :: q :: rest
    else q :: insertByPriority x p rest

/-- Peak indices sorted by descending sample value (the priority order in
which scipy's `_select_by_peak_distance` examines peaks). -/
def sortByPriority (x : List ℚ) (ps : List ℕ) : List ℕ :=
  ps.foldr (insertByPriority x) []

/-- scipy's `_select_by_peak_distance`: peaks are examined from highest to
lowest; a peak survives iff every higher surviving peak is at least
`distance` samples away.  The surviving peaks are returned in ascending
index order (as `find_peaks` does). -/
def selectByPeakDistance (peaks : List ℕ) (x : List ℚ) (distance : ℕ) : List ℕ :=
  let kept := (sortByPriority x peaks).foldl
    (fun kept p =>
      if kept.all (fun q => decide (distance ≤ max p q - min p q)) then p :: kept
      else kept) []
  peaks.filter (fun p => kept.contains p)

/-- `scipy.signal.find_peaks(x, height, distance)`: interior local maxima,
restricted to those of height at least `height`, then thinned by the
minimum-distance rule. -/
def find_peaks (x : List ℚ) (height : ℚ) (distance : ℕ) : List ℕ :=
  let candidates := (localMaxima x).filter (fun i => decide (height ≤ x.getD i 0))
  selectByPeakDistance candidates x distance

/-- Outcome of one `detect_spikes` run: the three warning pop-ups, the
ordinary "no spikes found" information pop-up, and the success path with the
number of spikes found. -/
inductive DetectOutcome where
  | noRegion
  | noData
  | noDataInRegion
  | noSpikes
  | found (n : ℕ)
  deriving DecidableEq, Repr

/-- Body of `detect_spikes` once the data snapshot `(data, times)` is chosen:
filter the whole snapshot, mask to the region, find peaks of the absolute
signal above `threshold` with the minimum-distance rule, and on success
replace the stored spike list with one record per peak (local signed
max/min over the half-window `min_distance_samples / 2` around the peak).
On the no-data-in-region and zero-peaks paths the function returns early and
`prev`, the previously stored spike list, is retained. -/
def detect_spikes_core (cfg : FilterConfig) (hp lp nf : List ℚ → List ℚ)
    (threshold : ℚ) (min_distance_samples : ℕ) (prev : List SpikeRecord)
    (data times : List ℚ) (start_time end_time : ℚ) :
    DetectOutcome × List SpikeRecord :=
  let processed := process_signal cfg hp lp nf data
  let region_times := (maskRegion times processed start_time end_time).1
  let region_data := (maskRegion times processed start_time end_time).2
  if region_times.isEmpty then (DetectOutcome.noDataInRegion, prev)
  else
    let abs_data := region_data.map (fun v => |v|)
    let peaks := find_peaks abs_data threshold min_distance_samples
    if peaks.isEmpty then (DetectOutcome.noSpikes, prev)
    else
      let window := min_distance_samples / 2
      let spikes := peaks.filterMap (fun peak_idx =>
        let start_idx := peak_idx - window
        let end_idx := min region_data.length (peak_idx + window + 1)
        let local_data := (region_data.take end_idx).drop start_idx
        if local_data.isEmpty then none
        else some
          { time := region_times.getD peak_idx 0
            max := listMax local_data
            min := listMin local_data
            amplitude := listMax local_data - listMin local_data })
      (DetectOutcome.found spikes.length, spikes)

/-- `detect_spikes(self)`: aborts with a warning when no region is selected;
takes the frozen snapshot when paused (and one exists), otherwise the live
buffers, aborting when the live buffer is empty; then runs the detection
body. -/
def detect_spikes (cfg : FilterConfig) (hp lp nf : List ℚ → List ℚ)
    (threshold : ℚ) (min_distance_samples : ℕ) (s : AnalyzerState) :
    DetectOutcome × List SpikeRecord :=
  match s.selected_region with
  | none => (DetectOutcome.noRegion, s.detected_spikes)
  | some (start_time, end_time) =>
    if s.paused && s.frozen_data.isSome then
      detect_spikes_core cfg hp lp nf threshold min_distance_samples
        s.detected_spikes (s.frozen_data.getD []) (s.frozen_time.getD [])
        start_time end_time
    else if s.data_buffer.isEmpty then (DetectOutcome.noData, s.detected_spikes)
    else
      detect_spikes_core cfg hp lp nf threshold min_distance_samples
        s.detected_spikes s.data_buffer s.time_buffer start_time end_time

theorem rtake_length {α : Type} (n : ℕ) (l : List α) :
    (rtake n l).length = min n l.length := by
  simp [rtake]

theorem rtake_eq_self {α : Type} {n : ℕ} {l : List α} (h : l.length ≤ n) :
    rtake n l = l := by
  rw [rtake, List.take_of_length_le (by simpa using h), List.reverse_reverse]

theorem rtake_append_rtake {α : Type} (n : ℕ) (a x : List α) :
    rtake n (rtake n a ++ x) = rtake n (a ++ x) := by
  unfold rtake
  rw [List.reverse_append, List.reverse_reverse, List.reverse_append]
  rw [List.take_append_eq_append_take, List.take_append_eq_append_take,
    List.take_take, Nat.min_eq_left (Nat.sub_le _ _)]

theorem dequeExtend_rtake {α : Type} (n : ℕ) (a x : List α) :
    dequeExtend n (rtake n a) x = rtake n (a ++ x) := by
  rw [dequeExtend, rtake_append_rtake]

theorem batchTimes_length (timestamp : ℚ) (n : ℕ) :
    (batchTimes timestamp n).length = n := by
  rw [batchTimes, List.length_map, List.length_range]

theorem concatBatches_append (bs : List (ℚ × List ℚ)) (b : ℚ × List ℚ) :
    concatBatches (bs ++ [b]) = concatBatches bs ++ b.2 := by
  induction bs with
  | nil => simp [concatBatches]
  | cons hd tl ih => simp [concatBatches, ih]

theorem concatBatchTimes_append (bs : List (ℚ × List ℚ)) (b : ℚ × List ℚ) :
    concatBatchTimes (bs ++ [b]) = concatBatchTimes bs ++ batchTimes b.1 b.2.length := by
  induction bs with
  | nil => simp [concatBatchTimes]
  | cons hd tl ih => simp [concatBatchTimes, ih]

theorem concatBatchTimes_length (bs : List (ℚ × List ℚ)) :
    (concatBatchTimes bs).length = (concatBatches bs).length := by
  induction bs with
  | nil => rfl
  | cons hd tl ih => simp [concatBatches, concatBatchTimes, ih, batchTimes_length]

theorem sampleBufferRun_spec (batches : List (ℚ × List ℚ)) :
    (sampleBufferRun batches).paused = false ∧
    (sampleBufferRun batches).data_buffer = rtake max_samples (concatBatches batches) ∧
    (sampleBufferRun batches).time_buffer = rtake max_samples (concatBatchTimes batches) := by
  induction batches using List.reverseRecOn with
  | nil => exact ⟨rfl, rfl, rfl⟩
  | append_singleton bs b ih =>
    obtain ⟨hp, hd, ht⟩ := ih
    have hstep : sampleBufferRun (bs ++ [b]) =
        on_data_received (sampleBufferRun bs) b.2 b.1 := by
      simp [sampleBufferRun]
    rw [hstep, on_data_received, hp]
    refine ⟨rfl, ?_, ?_⟩
    · simp only [if_neg Bool.false_ne_true, concatBatches_append, hd]
      exact dequeExtend_rtake _ _ _
    · simp only [if_neg Bool.false_ne_true, concatBatchTimes_append, ht]
      exact dequeExtend_rtake _ _ _

theorem process_signal_noop (hp lp nf : List ℚ → List ℚ) (data : List ℚ) :
    process_signal ⟨false, false, false⟩ hp lp nf data = data := by
  simp [process_signal, filterStage]

/-- C3: for every sequence of delivered batches, the two SampleBuffer
channels have equal length after every append, and the buffer always holds
exactly the most recent `max_samples = 300000` samples (and their
interpolated timestamps) of everything delivered, in insertion order —
oldest entries are evicted first, and the retained length is capped at
`max_samples`. -/
theorem C3_buffer_invariants (batches : List (ℚ × List ℚ)) :
    (sampleBufferRun batches).data_buffer.length
      = (sampleBufferRun batches).time_buffer.length ∧
    (sampleBufferRun batches).data_buffer
      = rtake max_samples (concatBatches batches) ∧
    (sampleBufferRun batches).time_buffer
      = rtake max_samples (concatBatchTimes batches) ∧
    (sampleBufferRun batches).data_buffer.length
      = min max_samples (concatBatches batches).length := by
  obtain ⟨-, hd, ht⟩ := sampleBufferRun_spec batches
  refine ⟨?_, hd, ht, ?_⟩
  · rw [hd, ht, rtake_length, rtake_length, concatBatchTimes_length]
  · rw [hd, rtake_length]

/-- C4: with all three filter stages disabled, `process_signal` is the
identity on the sample window — no DC-mean subtraction and no filter stage
touches the data. -/
theorem C4_noop_config_identity (hp lp nf : List ℚ → List ℚ) (data : List ℚ) :
    process_signal ⟨false, false, false⟩ hp lp nf data = data :=
  process_signal_noop hp lp nf data

/-- C9: the two-click normalization orders the pair (`start ≤ end`), is
insensitive to click order, extraction under either click order selects the
same samples, and the selected pairs are exactly those whose time lies in
the inclusive interval, as a sublist (hence in input order). -/
theorem C9_region_extraction (times data : List ℚ) (a b : ℚ) :
    (normalize_region a b).1 ≤ (normalize_region a b).2 ∧
    normalize_region a b = normalize_region b a ∧
    maskRegion times data (normalize_region a b).1 (normalize_region a b).2
      = maskRegion times data (normalize_region b a).1 (normalize_region b a).2 ∧
    (∀ p : ℚ × ℚ,
      p ∈ maskPairs times data (normalize_region a b).1 (normalize_region a b).2 ↔
        p ∈ times.zip data ∧
          (normalize_region a b).1 ≤ p.1 ∧ p.1 ≤ (normalize_region a b).2) ∧
    (maskPairs times data (normalize_region a b).1
        (normalize_region a b).2).Sublist (times.zip data) := by
  have hsymm : normalize_region a b = normalize_region b a := by
    rw [normalize_region, normalize_region, min_comm, max_comm]
  refine ⟨min_le_max, hsymm, by rw [hsymm], ?_, ?_⟩
  · intro p
    rw [maskPairs, List.mem_filter, decide_eq_true_eq]
  · exact List.filter_sublist _

/-- C10: clearing the data buffer cascades to the region state — both
channels are emptied, the monotonic counter is reset, and the selected
region, the temporary first-click point and the stored spike records are
all cleared (the frozen snapshot is dropped as well). -/
theorem C10_clear_cascades (s : AnalyzerState) :
    (clear_data s).data_buffer = [] ∧
    (clear_data s).time_buffer = [] ∧
    (clear_data s).total_samples_received = 0 ∧
    (clear_data s).selected_region = none ∧
    (clear_data s)._region_start = none ∧
    (clear_data s).detected_spikes = [] ∧
    (clear_data s).frozen_data = none ∧
    (clear_data s).frozen_time = none :=
  ⟨rfl, rfl, rfl, rfl, rfl, rfl, rfl, rfl⟩

/-- A state in paused mode with empty buffers and counter zero, for
exercising `on_data_received` while paused. -/
def pausedState : AnalyzerState :=
  { initState with paused := true }

/-- C1 counterexample: in paused mode a delivered non-empty batch is NOT
appended — `on_data_received` leaves the whole state (buffers and the
total-received counter) unchanged, so the counter does not grow by the batch
length as the claim requires. -/
theorem C1_paused_append_counterexample :
    pausedState.paused = true ∧
    on_data_received pausedState [1, 2, 3] 0 = pausedState ∧
    (on_data_received pausedState [1, 2, 3] 0).data_buffer.length
      = pausedState.data_buffer.length ∧
    (on_data_received pausedState [1, 2, 3] 0).total_samples_received
      ≠ pausedState.total_samples_received + 3 := by
  decide

/-- C1 amended: pausing stops acquisition itself — while `paused` is set,
`on_data_received` discards the delivered batch and changes nothing; when
not paused, the counter grows by the batch length and (while within
capacity) both channels are extended in order by the batch and its
interpolated timestamps. -/
theorem C1_pause_gates_acquisition (s : AnalyzerState) (samples : List ℚ)
    (timestamp : ℚ) :
    (s.paused = true → on_data_received s samples timestamp = s) ∧
    (s.paused = false →
      (on_data_received s samples timestamp).total_samples_received
        = s.total_samples_received + samples.length ∧
      (s.data_buffer.length + samples.length ≤ max_samples →
        (on_data_received s samples timestamp).data_buffer
          = s.data_buffer ++ samples) ∧
      (s.time_buffer.length + samples.length ≤ max_samples →
        (on_data_received s samples timestamp).time_buffer
          = s.time_buffer ++ batchTimes timestamp samples.length)) := by
  constructor
  · intro h
    simp [on_data_received, h]
  · intro h
    rw [on_data_received, if_neg (by rw [h]; exact Bool.false_ne_true)]
    refine ⟨rfl, ?_, ?_⟩
    · intro hfit
      show dequeExtend max_samples s.data_buffer samples = s.data_buffer ++ samples
      rw [dequeExtend, rtake_eq_self (by simpa using hfit)]
    · intro hfit
      show dequeExtend max_samples s.time_buffer
          (batchTimes timestamp samples.length)
        = s.time_buffer ++ batchTimes timestamp samples.length
      rw [dequeExtend, rtake_eq_self]
      rw [List.length_append, batchTimes_length]
      exact hfit

theorem C1_pause_gates_acquisition_witness :
    initState.paused = false ∧
    (on_data_received initState [1, 2, 3] 0).total_samples_received = 3 ∧
    (on_data_received initState [1, 2, 3] 0).data_buffer = [1, 2, 3] := by
  have h := (C1_pause_gates_acquisition initState [1, 2, 3] 0).2 rfl
  exact ⟨rfl, h.1, h.2.1 (by decide)⟩

/-- C2 counterexample: with the high-pass stage enabled (so adaptive DC
removal runs) the code's filter-whole-snapshot-then-mask pipeline differs
from the spec's extract-region-then-filter pipeline: on snapshot
amplitudes `[0, 4]` at times `[0, 1]` with region `[1, 1]`, the code yields
region samples `[2]` (mean 2 of the whole snapshot subtracted) while the
spec order yields `[0]` (mean 4 of the region subtracted). -/
theorem C2_pipeline_order_counterexample :
    region_pipeline ⟨true, false, false⟩ id id id [0, 1] [0, 4] 1 1
      ≠ region_pipeline_spec_order ⟨true, false, false⟩ id id id [0, 1] [0, 4] 1 1 := by
  have h1 : region_pipeline ⟨true, false, false⟩ id id id [0, 1] [0, 4] 1 1
      = ([1], [2]) := by
    norm_num [region_pipeline, process_signal, filterStage, mean, maskRegion,
      maskPairs]
  have h2 : region_pipeline_spec_order ⟨true, false, false⟩ id id id [0, 1] [0, 4] 1 1
      = ([1], [0]) := by
    norm_num [region_pipeline_spec_order, process_signal, filterStage, mean,
      maskRegion, maskPairs]
  rw [h1, h2]
  decide

/-- C2 amended: the code filters the whole snapshot first and then masks to
the region; this agrees with the spec's extract-then-filter order when all
filter stages are disabled (where the chain is the identity), but not in
general. -/
theorem C2_pipeline_noop_agreement (hp lp nf : List ℚ → List ℚ)
    (times data : List ℚ) (start_time end_time : ℚ) :
    region_pipeline ⟨false, false, false⟩ hp lp nf times data start_time end_time
      = region_pipeline_spec_order ⟨false, false, false⟩ hp lp nf times data
          start_time end_time := by
  unfold region_pipeline region_pipeline_spec_order
  rw [process_signal_noop, process_signal_noop]

/-- C5 counterexample: on an input of exactly 100 samples an enabled stage is
skipped (the guard is `len > 100`, strict), so "applied for every input of
length at least 100" fails: the stage output is the unchanged input, which
differs from the stage filter's output. -/
theorem C5_guard_counterexample :
    filterStage true (fun xs => (0 : ℚ) :: xs) (List.replicate 100 (0 : ℚ))
      = List.replicate 100 (0 : ℚ) ∧
    (0 : ℚ) :: List.replicate 100 (0 : ℚ) ≠ List.replicate 100 (0 : ℚ) := by
  constructor
  · rw [filterStage, if_neg]
    rintro ⟨-, h⟩
    simp at h
  · intro h
    have := congrArg List.length h
    simp at this

/-- C5 amended: an enabled filter stage is applied exactly when strictly more
than 100 samples are present; with 100 samples or fewer (or with the stage
disabled) the stage leaves the samples unchanged. -/
theorem C5_stage_guard (enabled : Bool) (f : List ℚ → List ℚ) (xs : List ℚ) :
    (enabled = true → 100 < xs.length → filterStage enabled f xs = f xs) ∧
    (xs.length ≤ 100 → filterStage enabled f xs = xs) ∧
    (enabled = false → filterStage enabled f xs = xs) := by
  refine ⟨?_, ?_, ?_⟩
  · intro he hlen
    rw [filterStage, if_pos ⟨he, hlen⟩]
  · intro hlen
    rw [filterStage, if_neg]
    rintro ⟨-, h⟩
    omega
  · intro he
    simp [filterStage, he]

theorem C5_stage_guard_witness :
    filterStage true (fun xs => (0 : ℚ) :: xs) (List.replicate 101 (0 : ℚ))
      = (0 : ℚ) :: List.replicate 101 (0 : ℚ) :=
  (C5_stage_guard true _ _).1 rfl (by simp)

/-- C6: the average-frequency estimate is unavailable (`none`) with fewer
than two zero crossings; with at least two, the mean of the time deltas
between consecutive crossing timestamps is doubled into a period, the
result is unavailable when that period is non-positive, and otherwise the
frequency is its reciprocal. -/
theorem C6_avg_freq_characterization (ts xs : List ℚ) :
    ((zero_crossings xs).length < 2 → avg_freq ts xs = none) ∧
    (2 ≤ (zero_crossings xs).length →
      mean (diffList ((zero_crossings xs).map (fun i => ts.getD i 0))) * 2 ≤ 0 →
      avg_freq ts xs = none) ∧
    (2 ≤ (zero_crossings xs).length →
      0 < mean (diffList ((zero_crossings xs).map (fun i => ts.getD i 0))) * 2 →
      avg_freq ts xs
        = some (1 / (mean (diffList ((zero_crossings xs).map
            (fun i => ts.getD i 0))) * 2))) := by
  refine ⟨?_, ?_, ?_⟩
  · intro h
    rw [avg_freq, if_neg]
    omega
  · intro hlen hper
    rw [avg_freq, if_pos (by omega), if_neg (by linarith)]
  · intro hlen hper
    rw [avg_freq, if_pos (by omega), if_pos hper]

theorem C6_avg_freq_witness :
    ((zero_crossings [(5 : ℚ)]).length < 2 ∧ avg_freq [0] [(5 : ℚ)] = none) ∧
    (2 ≤ (zero_crossings [(1 : ℚ), -1, 1, -1]).length ∧
      avg_freq [0, 1, 2, 3] [(1 : ℚ), -1, 1, -1] = some (1 / 2)) := by
  have hzc : zero_crossings [(1 : ℚ), -1, 1, -1] = [0, 1, 2] := by decide
  have hmap : (zero_crossings [(1 : ℚ), -1, 1, -1]).map
      (fun i => ([0, 1, 2, 3] : List ℚ).getD i 0) = [0, 1, 2] := by
    rw [hzc]
    decide
  have hper : mean (diffList ((zero_crossings [(1 : ℚ), -1, 1, -1]).map
      (fun i => ([0, 1, 2, 3] : List ℚ).getD i 0))) * 2 = 2 := by
    rw [hmap]
    norm_num [diffList, mean]
  constructor
  · exact ⟨by decide, (C6_avg_freq_characterization [0] [(5 : ℚ)]).1 (by decide)⟩
  · refine ⟨by decide, ?_⟩
    have h := (C6_avg_freq_characterization [0, 1, 2, 3]
      [(1 : ℚ), -1, 1, -1]).2.2 (by decide) (by rw [hper]; norm_num)
    rw [h, hper]

/-- C7 counterexample: on the amplitude series `[0, 5, -5, 5, -5, 0]` the
code's zero-crossing computation (sign changes between consecutive samples,
with `sign 0 = 0`) finds a crossing at every one of the five consecutive
pairs, so the count is 5, not 4 as claimed. -/
theorem C7_crossing_count_counterexample :
    (zero_crossings [(0 : ℚ), 5, -5, 5, -5, 0]).length ≠ 4 := by
  decide

/-- C7 amended: for amplitudes `[0, 5, -5, 5, -5, 0]` at times
`[0, 1, 2, 3, 4, 5]` the zero-crossing count is 5, and the average frequency
is defined and strictly positive (it evaluates to 1/2 Hz). -/
theorem C7_crossing_example :
    (zero_crossings [(0 : ℚ), 5, -5, 5, -5, 0]).length = 5 ∧
    avg_freq [0, 1, 2, 3, 4, 5] [(0 : ℚ), 5, -5, 5, -5, 0] = some (1 / 2) ∧
    (0 : ℚ) < 1 / 2 := by
  have hzc : zero_crossings [(0 : ℚ), 5, -5, 5, -5, 0] = [0, 1, 2, 3, 4] := by
    decide
  have hmap : (zero_crossings [(0 : ℚ), 5, -5, 5, -5, 0]).map
      (fun i => ([0, 1, 2, 3, 4, 5] : List ℚ).getD i 0) = [0, 1, 2, 3, 4] := by
    rw [hzc]
    decide
  have hper : mean (diffList ((zero_crossings [(0 : ℚ), 5, -5, 5, -5, 0]).map
      (fun i => ([0, 1, 2, 3, 4, 5] : List ℚ).getD i 0))) * 2 = 2 := by
    rw [hmap]
    norm_num [diffList, mean]
  refine ⟨by decide, ?_, by norm_num⟩
  rw [avg_freq, if_pos (by rw [hzc]; decide), if_pos (by rw [hper]; norm_num), hper]

theorem getD_lt_of_forall_lt {x : List ℚ} {h : ℚ} (hpos : 0 < h)
    (hall : ∀ v ∈ x, v < h) (i : ℕ) : x.getD i 0 < h := by
  rcases Nat.lt_or_ge i x.length with hi | hi
  · rw [List.getD_eq_getElem x 0 hi]
    exact hall _ (List.getElem_mem hi)
  · rw [List.getD_eq_default x 0 hi]
    exact hpos

theorem find_peaks_eq_nil {x : List ℚ} {height : ℚ} (distance : ℕ)
    (hpos : 0 < height) (hall : ∀ v ∈ x, v < height) :
    find_peaks x height distance = [] := by
  have hfilter : (localMaxima x).filter
      (fun i => decide (height ≤ x.getD i 0)) = [] := by
    refine List.filter_eq_nil_iff.mpr (fun i _ => ?_)
    simpa using not_le_of_lt (getD_lt_of_forall_lt hpos hall i)
  rw [find_peaks, hfilter]
  rfl

/-- A state with a previously detected spike on record and a selected region
whose processed samples all stay strictly below the detection threshold 10
used in the counterexample. -/
def staleSpikesState : AnalyzerState :=
  { data_buffer := [1, 2, 1]
    time_buffer := [0, 1, 2]
    paused := false
    frozen_data := none
    frozen_time := none
    total_samples_received := 3
    selected_region := some (0, 2)
    _region_start := none
    detected_spikes := [{ time := 0, max := 1, min := -1, amplitude := 2 }] }

/-- C8 counterexample: with a threshold (10) strictly above every processed
sample's absolute value in the region, `detect_spikes` does report the valid
zero-spikes outcome, but it returns before clearing the stored records, so
the previous run's SpikeRecord sequence is retained — the stored sequence
after the run is NOT empty, contradicting the claim's replacement clause. -/
theorem C8_zero_spikes_counterexample :
    staleSpikesState.detected_spikes ≠ [] ∧
    (∀ v ∈ (maskRegion staleSpikesState.time_buffer
        (process_signal ⟨false, false, false⟩ id id id
          staleSpikesState.data_buffer) 0 2).2, |v| < 10) ∧
    detect_spikes ⟨false, false, false⟩ id id id 10 10 staleSpikesState
      = (DetectOutcome.noSpikes, staleSpikesState.detected_spikes) ∧
    (detect_spikes ⟨false, false, false⟩ id id id 10 10 staleSpikesState).2
      ≠ [] := by
  decide

/-- C8 amended: a detection run over a non-empty region whose processed
samples all have absolute value strictly below the threshold completes with
the reported zero-spikes outcome (not one of the error outcomes), and the
stored detected-spikes sequence is left unchanged — the previous run's
records are retained, since the zero-peak path returns before the
replacement; replacement happens only on runs that find at least one
spike. -/
theorem C8_zero_spikes_retains_previous (cfg : FilterConfig)
    (hp lp nf : List ℚ → List ℚ) (threshold : ℚ) (distance : ℕ)
    (s : AnalyzerState) (a b : ℚ)
    (hreg : s.selected_region = some (a, b))
    (hpause : s.paused = false)
    (hne : s.data_buffer.isEmpty = false)
    (hmask : (maskRegion s.time_buffer
        (process_signal cfg hp lp nf s.data_buffer) a b).1.isEmpty = false)
    (hthr : ∀ v ∈ (maskRegion s.time_buffer
        (process_signal cfg hp lp nf s.data_buffer) a b).2, |v| < threshold) :
    detect_spikes cfg hp lp nf threshold distance s
      = (DetectOutcome.noSpikes, s.detected_spikes) := by
  have hpos : 0 < threshold := by
    have hne2 : (maskRegion s.time_buffer
        (process_signal cfg hp lp nf s.data_buffer) a b).2 ≠ [] := by
      intro hnil
      rw [maskRegion] at hmask hnil
      simp only [List.map_eq_nil_iff] at hnil
      simp [hnil] at hmask
    obtain ⟨v, hv⟩ := List.exists_mem_of_ne_nil _ hne2
    exact lt_of_le_of_lt (abs_nonneg v) (hthr v hv)
  have hall : ∀ w ∈ (maskRegion s.time_buffer
      (process_signal cfg hp lp nf s.data_buffer) a b).2.map
        (fun v => |v|), w < threshold := by
    intro w hw
    obtain ⟨v, hv, rfl⟩ := List.mem_map.mp hw
    exact hthr v hv
  have hstep : detect_spikes cfg hp lp nf threshold distance s
      = detect_spikes_core cfg hp lp nf threshold distance s.detected_spikes
          s.data_buffer s.time_buffer a b := by
    simp [detect_spikes, hreg, hpause, hne]
  rw [hstep, detect_spikes_core]
  simp only [hmask, Bool.false_eq_true, if_false,
    find_peaks_eq_nil distance hpos hall, List.isEmpty_nil, if_true]

theorem C8_zero_spikes_retains_previous_witness :
    detect_spikes ⟨false, false, false⟩ id id id 10 5 staleSpikesState
      = (DetectOutcome.noSpikes, staleSpikesState.detected_spikes) :=
  C8_zero_spikes_retains_previous ⟨false, false, false⟩ id id id 10 5
    staleSpikesState 0 2 rfl rfl rfl (by decide) (by decide)

end SurfaceMic
